import Mathlib

/-!
Verification development for the Advent of Code Raycast client
(`src/util/api.ts`): the submission client, its response classifier,
the rate-limit duration parser, and the backoff scheduler.

Machine integers in the source are JavaScript numbers that stay within
safe-integer range here (millisecond counts), so they are modelled as
`Nat`; timestamps and remaining-time differences (which can go negative
in the source arithmetic) are modelled as `Int`.
-/

/-- Apostrophe character, used to spell server marker strings. -/
def apos : String := String.singleton (Char.ofNat 39)

/-- JS `String.prototype.includes` on char lists: `pat` occurs as a
contiguous substring. -/
def listContains (pat : List Char) : List Char → Bool
  | [] => pat.isEmpty
  | c :: rest => pat.isPrefixOf (c :: rest) || listContains pat rest

/-- `info.includes(marker)` from the source, on strings. -/
def infoContains (info marker : String) : Bool :=
  listContains marker.toList info.toList

/-- Module-level mutable throttle state of `api.ts`
(`canSubmit`, `delayStart`, `delayAmount`). -/
structure ThrottleState where
  canSubmit : Bool
  delayStart : Int
  delayAmount : Int
deriving DecidableEq, Repr

/-- `AocError` names from the source. -/
inductive AocErrorName where
  | INVALID_SESSION_TOKEN
  | SOLVE_ERROR
  | RATE_LIMIT
deriving DecidableEq, Repr

/-- `AocError` from the source: a name plus the `Error` message
(`""` models the `undefined` message of `INVALID_SESSION_TOKEN`). -/
structure AocError where
  name : AocErrorName
  message : String
deriving DecidableEq, Repr

/-- A thrown JS value in this module: either a plain `new Error(msg)`
or an `AocError` (which extends `Error`). -/
inductive JsError where
  | plain (message : String)
  | aoc (e : AocError)
deriving DecidableEq, Repr

/-- The `.message` field of the thrown error (`AocError` inherits it). -/
def jsMessage : JsError → String
  | .plain m => m
  | .aoc a => a.message

/-- `handleErrors` from the source: rethrows as `INVALID_SESSION_TOKEN`
exactly when the message of the caught `Error` is `"400"` or `"500"`;
every other error is rethrown unchanged. -/
def handleErrors (e : JsError) : JsError :=
  if jsMessage e = "400" ∨ jsMessage e = "500" then
    .aoc ⟨.INVALID_SESSION_TOKEN, ""⟩
  else e

/-- `SolveStatus` from the source. -/
inductive SolveStatus where
  | success
  | wrong (message : String)
  | wait (message : String)
deriving DecidableEq, Repr

/-- `timeToReadable` from the source: zero-valued units are omitted and
each emitted unit carries a trailing space. -/
def timeToReadable (d h m s : Nat) : String :=
  (if d ≠ 0 then toString d ++ "d " else "")
    ++ (if h ≠ 0 then toString h ++ "h " else "")
    ++ (if m ≠ 0 then toString m ++ "m " else "")
    ++ (if s ≠ 0 then toString s ++ "s " else "")

/-- `msToReadable` from the source (`Math.floor` on non-negative numbers
is `Nat` division). -/
def msToReadable (ms : Nat) : String :=
  let msSecond := 1000
  let msMinute := 60 * msSecond
  let msHour := 60 * msMinute
  let msDay := 24 * msHour
  let d := ms / msDay
  let h := (ms - msDay * d) / msHour
  let m := (ms - msDay * d - msHour * h) / msMinute
  let s := (ms - msDay * d - msHour * h - msMinute * m) / msSecond
  timeToReadable d h m s

/-- The entries table of `strToNum` from the source. -/
def quantityEntries : List (String × Nat) :=
  [("one", 1), ("two", 2), ("three", 3), ("four", 4), ("five", 5),
   ("six", 6), ("seven", 7), ("eight", 8), ("nine", 9), ("ten", 10)]

/-- `strToNum` from the source. The source yields `NaN` on a miss via
`entries[time] || NaN`; the miss is unreachable because callers pass a
word matched by the spelled-out regex, so the default here is `0`. -/
def strToNum (time : String) : Nat :=
  ((quantityEntries.find? (fun p => p.1 == time)).map Prod.snd).getD 0

/-- The quantity-word alternatives of the spelled-out regex, in the
alternation order of the source. -/
def quantityWords : List String := quantityEntries.map Prod.fst

/-- The unit-word alternatives of the spelled-out regex. -/
def unitWords : List String := ["second", "minute", "hour", "day"]

/-- First word of `ws` (in alternation order) that is a prefix of `cs`.
The word lists are prefix-free, so at most one word can match at a
position and the alternation order cannot matter. -/
def firstPrefixOf (ws : List String) (cs : List Char) : Option String :=
  ws.find? (fun w => w.toList.isPrefixOf cs)

/-- One attempt of the spelled-out regex
`(one|...|ten) (second|minute|hour|day)` anchored at the head of `cs`,
returning the two capture groups. -/
def matchSpelledAt (cs : List Char) : Option (String × String) :=
  match firstPrefixOf quantityWords cs with
  | none => none
  | some q =>
    match cs.drop q.length with
    | ' ' :: rest =>
      match firstPrefixOf unitWords rest with
      | none => none
      | some u => some (q, u)
    | _ => none

/-- Leftmost match of the spelled-out regex: `info.match(/(one|...) (second|...)/)`. -/
def findSpelled : List Char → Option (String × String)
  | [] => none
  | c :: rest =>
    match matchSpelledAt (c :: rest) with
    | some r => some r
    | none => findSpelled rest

/-- Decimal value of a digit run, as JS `Number` computes it on the
matched digits (trailing whitespace in the matched slice is ignored by
`Number`, so only the digits contribute). -/
def digitsVal (ds : List Char) : Nat :=
  ds.foldl (fun a c => a * 10 + (c.toNat - 48)) 0

/-- The unit-letter alternatives `(s|m|h|d)` of the shorthand regex. -/
def isUnitChar (c : Char) : Bool :=
  c == 's' || c == 'm' || c == 'h' || c == 'd'

/-- Fuelled scanner for `info.match(/\d+\s*(s|m|h|d)/g)`. At each
position: a match requires a digit, greedily consumes the digit run,
then a whitespace run, then one unit letter; on success scanning resumes
after the match, on failure at the next character. Greedy matching with
no backtracking is equivalent to the regex here because a unit letter is
neither a digit nor whitespace. The fuel only serves termination and is
at least the list length at every call. -/
def scanGo : Nat → List Char → List (Nat × Char)
  | 0, _ => []
  | _, [] => []
  | fuel + 1, c :: rest =>
    if c.isDigit then
      let ds := (c :: rest).takeWhile Char.isDigit
      let afterDigits := (c :: rest).dropWhile Char.isDigit
      let afterWs := afterDigits.dropWhile Char.isWhitespace
      match afterWs with
      | [] => scanGo fuel rest
      | u :: rest4 =>
        if isUnitChar u then (digitsVal ds, u) :: scanGo fuel rest4
        else scanGo fuel rest
    else scanGo fuel rest

/-- All shorthand-token matches of `info`, in order. -/
def scanShorthand (cs : List Char) : List (Nat × Char) :=
  scanGo cs.length cs

/-- The `waitTime` dictionary with keys `s`, `m`, `h`, `d`. -/
structure WaitTime where
  s : Nat
  m : Nat
  h : Nat
  d : Nat
deriving DecidableEq, Repr

/-- The all-zero initial `waitTime`. -/
def wt0 : WaitTime := ⟨0, 0, 0, 0⟩

/-- `waitTime[u] = n`: assignment to one key of the dictionary.
The scanned unit is always one of `s`, `m`, `h`, `d`. -/
def setUnit (wt : WaitTime) (u : Char) (n : Nat) : WaitTime :=
  if u == 's' then { wt with s := n }
  else if u == 'm' then { wt with m := n }
  else if u == 'h' then { wt with h := n }
  else if u == 'd' then { wt with d := n }
  else wt

/-- The shorthand loop of the source: each match overwrites its unit key
(`waitTime[x.slice(-1)] = Number(x.slice(0, -1))`). -/
def applyMatches (wt : WaitTime) (ms : List (Nat × Char)) : WaitTime :=
  ms.foldl (fun w p => setUnit w p.2 p.1) wt

/-- `(waitTime.d*24*60*60 + waitTime.h*60*60 + waitTime.m*60 + waitTime.s)`. -/
def totalSeconds (wt : WaitTime) : Nat :=
  wt.d * 24 * 60 * 60 + wt.h * 60 * 60 + wt.m * 60 + wt.s

/-- `delayAmount` in milliseconds. -/
def totalMs (wt : WaitTime) : Nat := totalSeconds wt * 1000

/-- The duration-extraction of `handleRateLimit`: the spelled-out
pattern is used when present (`waitStr !== null`), otherwise the
shorthand matches; `none` when neither regex matched. -/
def extractWaitTime (info : String) : Option WaitTime :=
  match findSpelled info.toList with
  | some (time, unit) => some (setUnit wt0 (unit.toList.headD ' ') (strToNum time))
  | none =>
    match scanShorthand info.toList with
    | [] => none
    | ms => some (applyMatches wt0 ms)

/-- The Duration Parser of the spec: total parsed duration in
milliseconds, `none` when no pattern is found. -/
def parseDuration (info : String) : Option Nat :=
  (extractWaitTime info).map totalMs

/-- `handleRateLimit` from the source, with the module state and clock
explicit. It always throws: on a successful extraction it installs the
cooldown and throws `RATE_LIMIT`; otherwise it leaves the state alone
and throws `SOLVE_ERROR` carrying `info`. -/
def handleRateLimit (st : ThrottleState) (now : Int) (info : String) :
    ThrottleState × AocError :=
  match extractWaitTime info with
  | some wt =>
    (⟨false, now, (totalMs wt : Int)⟩,
     ⟨.RATE_LIMIT,
      "Next request possible in: " ++ timeToReadable wt.d wt.h wt.m wt.s⟩)
  | none => (st, ⟨.SOLVE_ERROR, info⟩)

/-- Line terminators that the `.` of a JS regex does not match. -/
def isLineEnd (c : Char) : Bool :=
  c == '\n' || c == '\r' || c.toNat == 0x2028 || c.toNat == 0x2029

/-- Characters after the last `]` of the current line, `none` when the
line holds no `]`. This realises the greedy `.*\]` of `/\[.*\]/`. -/
def afterLastClose : List Char → Option (List Char)
  | [] => none
  | c :: rest =>
    if c == ']' then some ((afterLastClose rest).getD rest)
    else afterLastClose rest

/-- `text.replace(/\[.*\], "")`-style first-match removal: the match
starts at the leftmost `[` whose line still holds a `]`, and extends
greedily to the last `]` of that line; only that first match is removed. -/
def stripBracketAux : List Char → List Char
  | [] => []
  | c :: rest =>
    if c == '[' then
      match afterLastClose (rest.takeWhile (fun ch => !(isLineEnd ch))) with
      | some tail => tail ++ rest.dropWhile (fun ch => !(isLineEnd ch))
      | none => c :: stripBracketAux rest
    else c :: stripBracketAux rest

/-- JS `String.prototype.trim`: strip whitespace from both ends. -/
def trimChars (cs : List Char) : List Char :=
  ((cs.dropWhile Char.isWhitespace).reverse.dropWhile Char.isWhitespace).reverse

/-- The classified text of a 200 submission response: the text of the
`main` element with the first bracketed run removed and the result
trimmed, or the fallback text when the document has no `main` element. -/
def computeInfo : Option String → String
  | some t => (trimChars (stripBracketAux t.toList)).asString
  | none => "Can" ++ apos ++ "t find the main element"

/-- Marker `"That's the right answer"`. -/
def rightAnswerMarker : String := "That" ++ apos ++ "s the right answer"

/-- Marker `"That's not the right answer"`. -/
def wrongAnswerMarker : String := "That" ++ apos ++ "s not the right answer"

/-- Marker `"You gave an answer too recently"`. -/
def tooRecentlyMarker : String := "You gave an answer too recently"

/-- Outcome of one `sendSolution` call: a returned `SolveStatus` or a
thrown error. -/
inductive SendResult where
  | ok (s : SolveStatus)
  | thrown (e : JsError)
deriving DecidableEq, Repr

/-- Gate check result: proceed to the network, or return `Wait`. -/
inductive GateResult where
  | proceed
  | wait (msg : String)
deriving DecidableEq, Repr

/-- The `if (!canSubmit)` prologue of `sendSolution`: while cooling it
either lazily reopens the gate (when the remaining time is `<= 0`) or
returns the `Wait` status without touching the state. -/
def checkGate (st : ThrottleState) (now : Int) : ThrottleState × GateResult :=
  if st.canSubmit then (st, .proceed)
  else
    let remainingMs : Int := st.delayAmount - (now - st.delayStart)
    if remainingMs ≤ 0 then ({ st with canSubmit := true }, .proceed)
    else (st, .wait ("You have to wait: " ++ msToReadable remainingMs.toNat))

/-- The body of `sendSolution` after the fetch, with the network
response abstracted as the HTTP status and the optional text of the
`main` element. Every throw inside the `try` block flows through
`handleErrors` in the `catch`. -/
def processResponse (st : ThrottleState) (now : Int) (status : Nat)
    (mainText : Option String) : ThrottleState × SendResult :=
  if status ≠ 200 then
    (st, .thrown (handleErrors (.plain (toString status))))
  else
    let info := computeInfo mainText
    if infoContains info rightAnswerMarker then (st, .ok .success)
    else if infoContains info wrongAnswerMarker then (st, .ok (.wrong info))
    else if infoContains info tooRecentlyMarker then
      let r := handleRateLimit st now info
      (r.1, .thrown (handleErrors (.aoc r.2)))
    else (st, .thrown (handleErrors (.aoc ⟨.SOLVE_ERROR, info⟩)))

/-- `sendSolution` from the source, as a state transformer: gate check
first, and only a proceeding attempt reaches the response processing.
A waiting result is produced before and independently of any network
response, mirroring that no request is issued while cooling. -/
def sendSolution (st : ThrottleState) (now : Int) (status : Nat)
    (mainText : Option String) : ThrottleState × SendResult :=
  match checkGate st now with
  | (st1, .wait msg) => (st1, .ok (.wait msg))
  | (st1, .proceed) => processResponse st1 now status mainText

/-- `API_URL` from the source. -/
def API_URL : String := "https://adventofcode.com"

/-- The HTTP request built by `sendSolution` (fields the claims are
about). -/
structure HttpRequest where
  url : String
  method : String
  contentType : String
  body : String
deriving DecidableEq, Repr

/-- The submission request of the source: the template literals
`${API_URL}/${year}/day/${day}/answer` and `level=${part}&answer=${solution}`
interpolate the values verbatim. -/
def submissionRequest (year day part : Nat) (solution : String) : HttpRequest :=
  { url := API_URL ++ "/" ++ toString year ++ "/day/" ++ toString day ++ "/answer"
  , method := "POST"
  , contentType := "application/x-www-form-urlencoded"
  , body := "level=" ++ toString part ++ "&answer=" ++ solution }

/-- Characters that `encodeURIComponent` leaves unescaped. -/
def isUnreservedChar (c : Char) : Bool :=
  (c ≥ 'A' && c ≤ 'Z') || (c ≥ 'a' && c ≤ 'z') || (c ≥ '0' && c ≤ '9')
    || c == '-' || c == '_' || c == '.' || c == '!' || c == '~'
    || c == '*' || c == Char.ofNat 39 || c == '(' || c == ')'

/-- Upper-case hex digit. -/
def hexDigit (n : Nat) : Char :=
  if n < 10 then Char.ofNat (48 + n) else Char.ofNat (55 + n)

/-- `%XX` escape of one byte. -/
def pctByte (b : Nat) : String :=
  "%" ++ String.singleton (hexDigit (b / 16)) ++ String.singleton (hexDigit (b % 16))

/-- UTF-8 bytes of a code point. -/
def utf8Bytes (n : Nat) : List Nat :=
  if n < 0x80 then [n]
  else if n < 0x800 then [0xC0 + n / 64, 0x80 + n % 64]
  else if n < 0x10000 then
    [0xE0 + n / 4096, 0x80 + n / 64 % 64, 0x80 + n % 64]
  else
    [0xF0 + n / 262144, 0x80 + n / 4096 % 64, 0x80 + n / 64 % 64, 0x80 + n % 64]

/-- Encoding of one character under `encodeURIComponent`. -/
def encChar (c : Char) : String :=
  if isUnreservedChar c then String.singleton c
  else ((utf8Bytes c.toNat).map pctByte).foldl (· ++ ·) ""

/-- Modelled from the spec: the URL-encoding (`encodeURIComponent`,
the `<urlencoded text>` of the submission body in the spec) of the
answer text. The repository never defines such an encoder; this
definition exists only to compare the specified body against the one the
source builds. -/
def urlEncode (s : String) : String :=
  (s.toList.map encChar).foldl (· ++ ·) ""

/-- Value carried by the last scanned token for unit `u`, if any: the
value the shorthand loop leaves in `waitTime[u]` (assignment semantics,
later matches overwrite earlier ones). -/
def lastAssigned (u : Char) : List (Nat × Char) → Option Nat
  | [] => none
  | p :: tl =>
    (lastAssigned u tl).orElse (fun _ => if p.2 == u then some p.1 else none)

/-- Milliseconds denoted by one spelled-out unit word. -/
def unitMillis (u : String) : Nat :=
  if u = "second" then 1000
  else if u = "minute" then 60000
  else if u = "hour" then 3600000
  else if u = "day" then 86400000
  else 0

/-! ## Helper lemmas -/

theorem listContains_le {pat l : List Char} (h : listContains pat l = true) :
    pat.length ≤ l.length := by
  induction l with
  | nil =>
    simp only [listContains, List.isEmpty_iff] at h
    simp [h]
  | cons c rest ih =>
    simp only [listContains, Bool.or_eq_true] at h
    rcases h with h | h
    · exact ( List.isPrefixOf_iff_prefix.mp h).length_le
    · exact (ih h).trans (by simp)

theorem infoContains_le {info marker : String}
    (h : infoContains info marker = true) : marker.length ≤ info.length :=
  listContains_le h

theorem handleErrors_of_long {e : JsError} (h : 3 < (jsMessage e).length) :
    handleErrors e = e := by
  unfold handleErrors
  rw [if_neg]
  rintro (h4 | h5)
  · rw [h4] at h; exact absurd h (by decide)
  · rw [h5] at h; exact absurd h (by decide)

theorem length_dropWhile_le (p : Char → Bool) (l : List Char) :
    (l.dropWhile p).length ≤ l.length :=
  (List.dropWhile_sublist p).length_le

theorem scanGo_fuel :
    ∀ (f g : Nat) (cs : List Char), cs.length ≤ f → cs.length ≤ g →
      scanGo f cs = scanGo g cs := by
  intro f
  induction f with
  | zero =>
    intro g cs hf _
    have hnil : cs = [] := List.length_eq_zero.mp (Nat.le_zero.mp hf)
    subst hnil
    cases g <;> rfl
  | succ f ih =>
    intro g cs hf hg
    cases cs with
    | nil => cases g <;> rfl
    | cons c rest =>
      cases g with
      | zero => simp at hg
      | succ g =>
        simp only [List.length_cons, Nat.add_le_add_iff_right] at hf hg
        by_cases hd : c.isDigit = true
        · simp only [scanGo]
          rw [if_pos hd, if_pos hd]
          cases hw : ((c :: rest).dropWhile Char.isDigit).dropWhile Char.isWhitespace with
          | nil => dsimp only; exact ih g rest hf hg
          | cons u rest4 =>
            dsimp only
            have hlen : rest4.length ≤ rest.length := by
              have h1 : (u :: rest4).length
                  ≤ ((c :: rest).dropWhile Char.isDigit).length := by
                rw [← hw]; exact length_dropWhile_le _ _
              have h2 : ((c :: rest).dropWhile Char.isDigit).length ≤ rest.length := by
                rw [List.dropWhile_cons, if_pos hd]
                exact length_dropWhile_le _ _
              simp only [List.length_cons] at h1
              omega
            by_cases hu : isUnitChar u = true
            · rw [if_pos hu, if_pos hu]
              rw [ih g rest4 (hlen.trans hf) (hlen.trans hg)]
            · rw [if_neg hu, if_neg hu]
              exact ih g rest hf hg
        · simp only [scanGo]
          rw [if_neg hd, if_neg hd]
          exact ih g rest hf hg

theorem scanShorthand_cons_not_digit {c : Char} {t : List Char}
    (h : c.isDigit = false) : scanShorthand (c :: t) = scanShorthand t := by
  simp only [scanShorthand, List.length_cons, scanGo]
  rw [if_neg (by simp [h])]

theorem ws_not_digit {c : Char} (h : c.isWhitespace = true) :
    c.isDigit = false := by
  simp only [Char.isWhitespace, Bool.or_eq_true, decide_eq_true_eq] at h
  rcases h with ((h | h) | h) | h <;> subst h <;> decide

theorem unitChar_not_digit {c : Char} (h : isUnitChar c = true) :
    c.isDigit = false := by
  simp only [isUnitChar, Bool.or_eq_true, beq_iff_eq] at h
  rcases h with ((h | h) | h) | h <;> subst h <;> decide

theorem unitChar_not_ws {c : Char} (h : isUnitChar c = true) :
    c.isWhitespace = false := by
  simp only [isUnitChar, Bool.or_eq_true, beq_iff_eq] at h
  rcases h with ((h | h) | h) | h <;> subst h <;> decide

theorem setUnit_s (wt : WaitTime) (u : Char) (n : Nat) :
    (setUnit wt u n).s = if u == 's' then n else wt.s := by
  by_cases hu : u = 's'
  · subst hu; rfl
  · rw [if_neg (by simpa using hu)]
    simp only [setUnit]
    split_ifs with h1 h2 h3 h4
    · exact absurd (by simpa using h1) hu
    · rfl
    · rfl
    · rfl
    · rfl

theorem setUnit_m (wt : WaitTime) (u : Char) (n : Nat) :
    (setUnit wt u n).m = if u == 'm' then n else wt.m := by
  by_cases hu : u = 'm'
  · subst hu; rfl
  · rw [if_neg (by simpa using hu)]
    simp only [setUnit]
    split_ifs with h1 h2 h3 h4
    · rfl
    · exact absurd (by simpa using h2) hu
    · rfl
    · rfl
    · rfl

theorem setUnit_h (wt : WaitTime) (u : Char) (n : Nat) :
    (setUnit wt u n).h = if u == 'h' then n else wt.h := by
  by_cases hu : u = 'h'
  · subst hu; rfl
  · rw [if_neg (by simpa using hu)]
    simp only [setUnit]
    split_ifs with h1 h2 h3 h4
    · rfl
    · rfl
    · exact absurd (by simpa using h3) hu
    · rfl
    · rfl

theorem setUnit_d (wt : WaitTime) (u : Char) (n : Nat) :
    (setUnit wt u n).d = if u == 'd' then n else wt.d := by
  by_cases hu : u = 'd'
  · subst hu; rfl
  · rw [if_neg (by simpa using hu)]
    simp only [setUnit]
    split_ifs with h1 h2 h3 h4
    · rfl
    · rfl
    · rfl
    · exact absurd (by simpa using h4) hu
    · rfl

theorem applyMatches_s :
    ∀ (ms : List (Nat × Char)) (wt : WaitTime),
      (applyMatches wt ms).s = (lastAssigned 's' ms).getD wt.s := by
  intro ms
  induction ms with
  | nil => intro wt; rfl
  | cons p tl ih =>
    intro wt
    simp only [applyMatches, List.foldl_cons] at *
    rw [ih (setUnit wt p.2 p.1)]
    simp only [lastAssigned]
    cases h : lastAssigned 's' tl with
    | some v => rfl
    | none =>
      simp only [Option.orElse, Option.getD]
      rw [setUnit_s]
      cases hb : p.2 == 's' <;> rfl

theorem applyMatches_m :
    ∀ (ms : List (Nat × Char)) (wt : WaitTime),
      (applyMatches wt ms).m = (lastAssigned 'm' ms).getD wt.m := by
  intro ms
  induction ms with
  | nil => intro wt; rfl
  | cons p tl ih =>
    intro wt
    simp only [applyMatches, List.foldl_cons] at *
    rw [ih (setUnit wt p.2 p.1)]
    simp only [lastAssigned]
    cases h : lastAssigned 'm' tl with
    | some v => rfl
    | none =>
      simp only [Option.orElse, Option.getD]
      rw [setUnit_m]
      cases hb : p.2 == 'm' <;> rfl

theorem applyMatches_h :
    ∀ (ms : List (Nat × Char)) (wt : WaitTime),
      (applyMatches wt ms).h = (lastAssigned 'h' ms).getD wt.h := by
  intro ms
  induction ms with
  | nil => intro wt; rfl
  | cons p tl ih =>
    intro wt
    simp only [applyMatches, List.foldl_cons] at *
    rw [ih (setUnit wt p.2 p.1)]
    simp only [lastAssigned]
    cases h : lastAssigned 'h' tl with
    | some v => rfl
    | none =>
      simp only [Option.orElse, Option.getD]
      rw [setUnit_h]
      cases hb : p.2 == 'h' <;> rfl

theorem applyMatches_d :
    ∀ (ms : List (Nat × Char)) (wt : WaitTime),
      (applyMatches wt ms).d = (lastAssigned 'd' ms).getD wt.d := by
  intro ms
  induction ms with
  | nil => intro wt; rfl
  | cons p tl ih =>
    intro wt
    simp only [applyMatches, List.foldl_cons] at *
    rw [ih (setUnit wt p.2 p.1)]
    simp only [lastAssigned]
    cases h : lastAssigned 'd' tl with
    | some v => rfl
    | none =>
      simp only [Option.orElse, Option.getD]
      rw [setUnit_d]
      cases hb : p.2 == 'd' <;> rfl

theorem quantity_words_prefix_free :
    ∀ w1 ∈ quantityWords, ∀ w2 ∈ quantityWords,
      w1.toList <+: w2.toList → w1 = w2 := by decide

theorem unit_words_prefix_free :
    ∀ w1 ∈ unitWords, ∀ w2 ∈ unitWords,
      w1.toList <+: w2.toList → w1 = w2 := by decide

theorem firstPrefixOf_mem_of_eq_some {ws : List String} {cs : List Char}
    {q : String} (h : firstPrefixOf ws cs = some q) :
    q ∈ ws ∧ q.toList <+: cs := by
  refine ⟨List.mem_of_find?_eq_some h, ?_⟩
  have hp := List.find?_some h
  exact List.isPrefixOf_iff_prefix.mp hp

theorem firstPrefixOf_pattern {ws : List String}
    (hpf : ∀ w1 ∈ ws, ∀ w2 ∈ ws, w1.toList <+: w2.toList → w1 = w2)
    {w : String} (hw : w ∈ ws) (b : List Char) :
    firstPrefixOf ws (w.toList ++ b) = some w := by
  cases h : firstPrefixOf ws (w.toList ++ b) with
  | none =>
    exfalso
    have hall := List.find?_eq_none.mp h w hw
    exact hall ( List.isPrefixOf_iff_prefix.mpr (List.prefix_append _ _))
  | some q =>
    obtain ⟨hqmem, hqpre⟩ := firstPrefixOf_mem_of_eq_some h
    have hwpre : w.toList <+: w.toList ++ b := List.prefix_append _ _
    rcases Nat.le_total q.toList.length w.toList.length with hle | hle
    · have : q.toList <+: w.toList :=
        List.prefix_of_prefix_length_le hqpre hwpre hle
      rw [hpf q hqmem w hw this]
    · have : w.toList <+: q.toList :=
        List.prefix_of_prefix_length_le hwpre hqpre hle
      rw [hpf w hw q hqmem this]

theorem matchSpelledAt_pattern {qw uw : String} (b : List Char)
    (hq : qw ∈ quantityWords) (hu : uw ∈ unitWords) :
    matchSpelledAt (qw.toList ++ ' ' :: (uw.toList ++ b)) = some (qw, uw) := by
  unfold matchSpelledAt
  rw [firstPrefixOf_pattern quantity_words_prefix_free hq]
  dsimp only
  have hdrop :
      (qw.toList ++ ' ' :: (uw.toList ++ b)).drop qw.length
        = ' ' :: (uw.toList ++ b) :=
    List.drop_left' rfl
  rw [hdrop]
  split
  · rename_i rest heq
    injection heq with hc hrest
    subst hrest
    rw [firstPrefixOf_pattern unit_words_prefix_free hu]
  · rename_i x hne
    exact (hne (uw.toList ++ b) rfl).elim

theorem matchSpelledAt_mem {cs : List Char} {q u : String}
    (h : matchSpelledAt cs = some (q, u)) :
    q ∈ quantityWords ∧ u ∈ unitWords := by
  unfold matchSpelledAt at h
  cases h1 : firstPrefixOf quantityWords cs with
  | none => rw [h1] at h; exact absurd h (by simp)
  | some q1 =>
    rw [h1] at h
    dsimp only at h
    split at h
    · rename_i rest heq
      cases h3 : firstPrefixOf unitWords rest with
      | none => rw [h3] at h; exact absurd h (by simp)
      | some u1 =>
        rw [h3] at h
        dsimp only at h
        simp only [Option.some.injEq, Prod.mk.injEq] at h
        obtain ⟨hq1, hu1⟩ := h
        subst hq1; subst hu1
        exact ⟨(firstPrefixOf_mem_of_eq_some h1).1,
               (firstPrefixOf_mem_of_eq_some h3).1⟩
    · exact absurd h (by simp)

theorem findSpelled_isSome_of_suffix :
    ∀ (a rest : List Char), (matchSpelledAt rest).isSome = true →
      (findSpelled (a ++ rest)).isSome = true := by
  intro a
  induction a with
  | nil =>
    intro rest h
    cases rest with
    | nil => exact absurd h (by decide)
    | cons c r =>
      simp only [List.nil_append, findSpelled]
      cases hm : matchSpelledAt (c :: r) with
      | some p => rfl
      | none => rw [hm] at h; exact absurd h (by decide)
  | cons x a ih =>
    intro rest h
    simp only [List.cons_append, findSpelled]
    cases hm : matchSpelledAt (x :: (a ++ rest)) with
    | some p => rfl
    | none => exact ih rest h

theorem findSpelled_mem :
    ∀ (cs : List Char) (q u : String), findSpelled cs = some (q, u) →
      q ∈ quantityWords ∧ u ∈ unitWords := by
  intro cs
  induction cs with
  | nil => intro q u h; exact absurd h (by simp [findSpelled])
  | cons c rest ih =>
    intro q u h
    simp only [findSpelled] at h
    cases hm : matchSpelledAt (c :: rest) with
    | some p =>
      rw [hm] at h
      dsimp only at h
      obtain ⟨q1, u1⟩ := p
      injection h with hpair
      rw [hpair] at hm
      exact matchSpelledAt_mem hm
    | none =>
      rw [hm] at h
      dsimp only at h
      exact ih q u h

theorem parseDuration_spelled {info : String} {q u : String}
    (h : findSpelled info.toList = some (q, u)) (hu : u ∈ unitWords) :
    parseDuration info = some (strToNum q * unitMillis u) := by
  unfold parseDuration extractWaitTime
  rw [h]
  dsimp only
  simp only [unitWords, List.mem_cons, List.not_mem_nil, or_false] at hu
  rcases hu with h1 | h1 | h1 | h1 <;> subst h1
  · have e1 : setUnit wt0 ("second".toList.headD ' ') (strToNum q)
        = ⟨strToNum q, 0, 0, 0⟩ := rfl
    have e2 : unitMillis "second" = 1000 := rfl
    rw [e1, e2]
    simp only [Option.map_some', Option.some.injEq, totalMs, totalSeconds]
    omega
  · have e1 : setUnit wt0 ("minute".toList.headD ' ') (strToNum q)
        = ⟨0, strToNum q, 0, 0⟩ := rfl
    have e2 : unitMillis "minute" = 60000 := rfl
    rw [e1, e2]
    simp only [Option.map_some', Option.some.injEq, totalMs, totalSeconds]
    omega
  · have e1 : setUnit wt0 ("hour".toList.headD ' ') (strToNum q)
        = ⟨0, 0, strToNum q, 0⟩ := rfl
    have e2 : unitMillis "hour" = 3600000 := rfl
    rw [e1, e2]
    simp only [Option.map_some', Option.some.injEq, totalMs, totalSeconds]
    omega
  · have e1 : setUnit wt0 ("day".toList.headD ' ') (strToNum q)
        = ⟨0, 0, 0, strToNum q⟩ := rfl
    have e2 : unitMillis "day" = 86400000 := rfl
    rw [e1, e2]
    simp only [Option.map_some', Option.some.injEq, totalMs, totalSeconds]
    omega

theorem scanShorthand_skip (p rest : List Char)
    (hp : ∀ c ∈ p, c.isDigit = false) :
    scanShorthand (p ++ rest) = scanShorthand rest := by
  induction p with
  | nil => rfl
  | cons c p ih =>
    have hc : c.isDigit = false := hp c (List.mem_cons_self c p)
    rw [List.cons_append, scanShorthand_cons_not_digit hc]
    exact ih (fun d hd => hp d (List.mem_cons_of_mem c hd))

theorem scanShorthand_match_head (ds ws q : List Char) (u : Char)
    (hds : ds ≠ []) (hdig : ∀ c ∈ ds, c.isDigit = true)
    (hws : ws ≠ []) (hwsp : ∀ c ∈ ws, c.isWhitespace = true)
    (hu : isUnitChar u = true) :
    scanShorthand (ds ++ (ws ++ u :: q)) = (digitsVal ds, u) :: scanShorthand q := by
  obtain ⟨d0, ds', rfl⟩ : ∃ d0 ds', ds = d0 :: ds' := by
    cases ds with
    | nil => exact absurd rfl hds
    | cons a b => exact ⟨a, b, rfl⟩
  obtain ⟨w0, ws', rfl⟩ : ∃ w0 ws', ws = w0 :: ws' := by
    cases ws with
    | nil => exact absurd rfl hws
    | cons a b => exact ⟨a, b, rfl⟩
  have hd0 : d0.isDigit = true := hdig d0 (List.mem_cons_self _ _)
  have hw0 : w0.isDigit = false :=
    ws_not_digit (hwsp w0 (List.mem_cons_self _ _))
  have e1 : List.takeWhile Char.isDigit (d0 :: (ds' ++ ((w0 :: ws') ++ u :: q)))
      = d0 :: ds' := by
    show List.takeWhile Char.isDigit ((d0 :: ds') ++ ((w0 :: ws') ++ u :: q))
        = d0 :: ds'
    rw [List.takeWhile_append_of_pos hdig, List.cons_append, List.cons_append,
        List.takeWhile_cons, if_neg (by simp [hw0]), List.append_nil]
  have e2 : List.dropWhile Char.isDigit (d0 :: (ds' ++ ((w0 :: ws') ++ u :: q)))
      = w0 :: (ws' ++ u :: q) := by
    show List.dropWhile Char.isDigit ((d0 :: ds') ++ ((w0 :: ws') ++ u :: q))
        = w0 :: (ws' ++ u :: q)
    rw [List.dropWhile_append_of_pos hdig, List.cons_append, List.dropWhile_cons,
        if_neg (by simp [hw0])]
  have e3 : List.dropWhile Char.isWhitespace (w0 :: (ws' ++ u :: q)) = u :: q := by
    show List.dropWhile Char.isWhitespace ((w0 :: ws') ++ u :: q) = u :: q
    rw [List.dropWhile_append_of_pos hwsp, List.dropWhile_cons,
        if_neg (by simp [unitChar_not_ws hu])]
  show scanGo ((ds' ++ ((w0 :: ws') ++ u :: q)).length + 1)
      (d0 :: (ds' ++ ((w0 :: ws') ++ u :: q)))
    = (digitsVal (d0 :: ds'), u) :: scanShorthand q
  simp only [scanGo]
  rw [if_pos hd0, e2, e3]
  dsimp only
  rw [if_pos hu, e1]
  have hqlen : q.length ≤ (ds' ++ ((w0 :: ws') ++ u :: q)).length := by
    simp only [List.length_append, List.length_cons]
    omega
  rw [scanGo_fuel (ds' ++ ((w0 :: ws') ++ u :: q)).length q.length q hqlen
      (Nat.le_refl _)]
  rfl

theorem scanShorthand_token (p ds ws q : List Char) (u : Char)
    (hp : ∀ c ∈ p, c.isDigit = false)
    (hds : ds ≠ []) (hdig : ∀ c ∈ ds, c.isDigit = true)
    (hws : ws ≠ []) (hwsp : ∀ c ∈ ws, c.isWhitespace = true)
    (hu : isUnitChar u = true) :
    scanShorthand (p ++ (ds ++ (ws ++ u :: q)))
      = (digitsVal ds, u) :: scanShorthand q := by
  rw [scanShorthand_skip p _ hp]
  exact scanShorthand_match_head ds ws q u hds hdig hws hwsp hu

theorem toList_asString (s : String) : s.toList.asString = s := by
  cases s
  rfl

theorem urlEncode_unreserved {s : String}
    (h : ∀ c ∈ s.toList, isUnreservedChar c = true) : urlEncode s = s := by
  unfold urlEncode
  have key : ∀ (l : List Char), (∀ c ∈ l, isUnreservedChar c = true) →
      ∀ init : String, (l.map encChar).foldl (· ++ ·) init = init ++ l.asString := by
    intro l
    induction l with
    | nil =>
      intro _ init
      exact (String.append_empty init).symm
    | cons c l ih =>
      intro hall init
      simp only [List.map_cons, List.foldl_cons]
      rw [ih (fun d hd => hall d (List.mem_cons_of_mem c hd)) (init ++ encChar c)]
      have hc : encChar c = String.singleton c := by
        unfold encChar
        rw [if_pos (hall c (List.mem_cons_self c l))]
      rw [hc, String.append_assoc]
      rfl
  rw [key s.toList h ""]
  rw [String.empty_append]
  exact toList_asString s

/-! ## Gate-level helper lemmas -/

theorem checkGate_open (st : ThrottleState) (now : Int)
    (h : st.canSubmit = true) : checkGate st now = (st, .proceed) := by
  unfold checkGate
  rw [if_pos h]

theorem checkGate_cooling_wait (st : ThrottleState) (now : Int)
    (h : st.canSubmit = false) (hrem : 0 < st.delayAmount - (now - st.delayStart)) :
    checkGate st now
      = (st, .wait ("You have to wait: "
          ++ msToReadable (st.delayAmount - (now - st.delayStart)).toNat)) := by
  unfold checkGate
  rw [if_neg (by simp [h]), if_neg (by omega)]

theorem checkGate_cooling_reopen (st : ThrottleState) (now : Int)
    (h : st.canSubmit = false) (hrem : st.delayAmount - (now - st.delayStart) ≤ 0) :
    checkGate st now = ({ st with canSubmit := true }, .proceed) := by
  unfold checkGate
  rw [if_neg (by simp [h]), if_pos hrem]

theorem sendSolution_open (st : ThrottleState) (now : Int) (status : Nat)
    (mt : Option String) (h : st.canSubmit = true) :
    sendSolution st now status mt = processResponse st now status mt := by
  unfold sendSolution
  rw [checkGate_open st now h]

theorem processResponse_no_wait (st : ThrottleState) (now : Int) (status : Nat)
    (mt : Option String) (msg : String) :
    (processResponse st now status mt).2 ≠ .ok (.wait msg) := by
  unfold processResponse
  split
  · simp
  · dsimp only
    split
    · simp
    · split
      · simp
      · split
        · simp
        · simp

/-! ## Claim theorems -/

/-- C1: while the scheduler is Cooling with cooldown started at `T` for
duration `D`, an attempt at `now < T + D` returns `Waiting` rendering
the remaining time `T + D - now` and leaves the state untouched; the
result does not depend on the network response (`status`, `mainText`),
so no request is observed; the remaining time strictly decreases across
successive attempts; and an attempt at `now ≥ T + D` reopens the gate
and proceeds to the network processing as normal. -/
theorem claim_C1_cooling_gate (T D now : Int) (status : Nat) (mt : Option String) :
    (now < T + D →
      sendSolution ⟨false, T, D⟩ now status mt
        = (⟨false, T, D⟩,
           .ok (.wait ("You have to wait: " ++ msToReadable (T + D - now).toNat)))) ∧
    (T + D ≤ now →
      sendSolution ⟨false, T, D⟩ now status mt
        = processResponse ⟨true, T, D⟩ now status mt) ∧
    (∀ t1 t2 : Int, t1 < t2 → t2 < T + D → T + D - t2 < T + D - t1) := by
  refine ⟨?_, ?_, ?_⟩
  · intro h
    unfold sendSolution
    rw [checkGate_cooling_wait ⟨false, T, D⟩ now rfl (by dsimp only; omega)]
    dsimp only
    have harith : D - (now - T) = T + D - now := by omega
    rw [harith]
  · intro h
    unfold sendSolution
    rw [checkGate_cooling_reopen ⟨false, T, D⟩ now rfl (by dsimp only; omega)]
  · intro t1 t2 h1 h2
    omega

/-- Witness for C1 at a concrete Cooling state. -/
theorem claim_C1_cooling_gate_witness :
    sendSolution ⟨false, 0, 60000⟩ 1000 200 none
      = (⟨false, 0, 60000⟩, .ok (.wait "You have to wait: 59s ")) := by
  have h := (claim_C1_cooling_gate 0 60000 1000 200 none).1 (by decide)
  exact h.trans (by decide)

/-- C2 (amended): on a non-200 status the thrown transport error is
rethrown as `INVALID_SESSION_TOKEN` exactly when the status renders as
`"400"` or `"500"`; any other non-200 status propagates as the plain
error carrying the status text. In particular 500 and 400 yield
`InvalidSession`. -/
theorem claim_C2_status_classification (st : ThrottleState) (now : Int)
    (status : Nat) (mt : Option String) (hopen : st.canSubmit = true) :
    (status ≠ 200 →
      sendSolution st now status mt
        = (st, .thrown (if toString status = "400" ∨ toString status = "500"
            then .aoc ⟨.INVALID_SESSION_TOKEN, ""⟩
            else .plain (toString status)))) ∧
    sendSolution st now 500 mt = (st, .thrown (.aoc ⟨.INVALID_SESSION_TOKEN, ""⟩)) ∧
    sendSolution st now 400 mt = (st, .thrown (.aoc ⟨.INVALID_SESSION_TOKEN, ""⟩)) := by
  have main : ∀ s0 : Nat, s0 ≠ 200 →
      sendSolution st now s0 mt
        = (st, .thrown (if toString s0 = "400" ∨ toString s0 = "500"
            then .aoc ⟨.INVALID_SESSION_TOKEN, ""⟩
            else .plain (toString s0))) := by
    intro s0 hs0
    rw [sendSolution_open st now s0 mt hopen]
    unfold processResponse
    rw [if_pos hs0]
    rfl
  refine ⟨main status, ?_, ?_⟩
  · rw [main 500 (by decide), if_pos (Or.inr (by decide))]
  · rw [main 400 (by decide), if_pos (Or.inl (by decide))]

/-- Counterexample to C2 as stated: status 404 is not classified as
`InvalidSession`; the plain `Error("404")` propagates unchanged. -/
theorem claim_C2_counterexample :
    sendSolution ⟨true, 0, 0⟩ 0 404 none = (⟨true, 0, 0⟩, .thrown (.plain "404"))
    ∧ JsError.plain "404" ≠ .aoc ⟨.INVALID_SESSION_TOKEN, ""⟩ := by
  constructor
  · rfl
  · decide

/-- Witness for C2 (amended) at status 500. -/
theorem claim_C2_status_classification_witness :
    sendSolution ⟨true, 0, 0⟩ 0 500 none
      = (⟨true, 0, 0⟩, .thrown (.aoc ⟨.INVALID_SESSION_TOKEN, ""⟩)) :=
  (claim_C2_status_classification ⟨true, 0, 0⟩ 0 500 none rfl).2.1

/-- C10: a `Waiting` outcome leaves the throttle state exactly as it
was, and a gate check that lets an attempt proceed changes at most the
`canSubmit` flag (never the cooldown start or duration). -/
theorem claim_C10_throttle_frame :
    (∀ (st : ThrottleState) (now : Int) (status : Nat) (mt : Option String)
        (msg : String),
      (sendSolution st now status mt).2 = .ok (.wait msg) →
      (sendSolution st now status mt).1 = st) ∧
    (∀ (st : ThrottleState) (now : Int),
      st.canSubmit = false →
      ((st.delayAmount - (now - st.delayStart) ≤ 0 →
          checkGate st now = ({ st with canSubmit := true }, .proceed)) ∧
       (0 < st.delayAmount - (now - st.delayStart) →
          checkGate st now = (st, .wait ("You have to wait: "
            ++ msToReadable (st.delayAmount - (now - st.delayStart)).toNat))))) := by
  constructor
  · intro st now status mt msg h
    unfold sendSolution at h ⊢
    cases hg : checkGate st now with
    | mk st1 g =>
      cases g with
      | wait m =>
        dsimp only
        unfold checkGate at hg
        split at hg
        · exact absurd hg (by simp)
        · dsimp only at hg
          split at hg
          · exact absurd hg (by simp)
          · injection hg with h1 h2
            rw [← h1]
      | proceed =>
        rw [hg] at h
        dsimp only at h
        exact absurd h (processResponse_no_wait st1 now status mt msg)
  · intro st now hclosed
    exact ⟨fun hrem => checkGate_cooling_reopen st now hclosed hrem,
           fun hrem => checkGate_cooling_wait st now hclosed hrem⟩

/-- Witness for C10: a concrete rejected attempt keeps the state. -/
theorem claim_C10_throttle_frame_witness :
    (sendSolution ⟨false, 0, 60000⟩ 1000 200 none).1 = ⟨false, 0, 60000⟩ :=
  claim_C10_throttle_frame.1 ⟨false, 0, 60000⟩ 1000 200 none
    "You have to wait: 59s " (by decide)

/-- C5 (amended): on a 200 response the classifier checks literal
substrings of the extracted main-content text in priority order — right
answer, wrong answer, rate limit, otherwise a `SOLVE_ERROR` carrying the
text — except that a fallback text of exactly `"400"` or `"500"` is
re-classified by the catch-all error normalizer as
`INVALID_SESSION_TOKEN`. -/
theorem claim_C5_response_classifier (st : ThrottleState) (now : Int)
    (mt : Option String) (info : String)
    (hopen : st.canSubmit = true) (hinfo : info = computeInfo mt) :
    (infoContains info rightAnswerMarker = true →
      sendSolution st now 200 mt = (st, .ok .success)) ∧
    (infoContains info rightAnswerMarker = false →
     infoContains info wrongAnswerMarker = true →
      sendSolution st now 200 mt = (st, .ok (.wrong info))) ∧
    (infoContains info rightAnswerMarker = false →
     infoContains info wrongAnswerMarker = false →
     infoContains info tooRecentlyMarker = true →
      sendSolution st now 200 mt
        = ((handleRateLimit st now info).1,
           .thrown (.aoc (handleRateLimit st now info).2))) ∧
    (infoContains info rightAnswerMarker = false →
     infoContains info wrongAnswerMarker = false →
     infoContains info tooRecentlyMarker = false →
      sendSolution st now 200 mt
        = (st, .thrown (if info = "400" ∨ info = "500"
            then .aoc ⟨.INVALID_SESSION_TOKEN, ""⟩
            else .aoc ⟨.SOLVE_ERROR, info⟩))) := by
  subst hinfo
  rw [sendSolution_open st now 200 mt hopen]
  unfold processResponse
  rw [if_neg (by decide)]
  dsimp only
  refine ⟨?_, ?_, ?_, ?_⟩
  · intro h1
    rw [if_pos h1]
  · intro h1 h2
    rw [if_neg (by simp [h1]), if_pos h2]
  · intro h1 h2 h3
    rw [if_neg (by simp [h1]), if_neg (by simp [h2]), if_pos h3]
    have hlong :
        3 < (jsMessage (.aoc (handleRateLimit st now (computeInfo mt)).2)).length := by
      cases hx : extractWaitTime (computeInfo mt) with
      | some wt =>
        unfold handleRateLimit
        rw [hx]
        dsimp only [jsMessage]
        rw [String.length_append,
            (by decide : ("Next request possible in: ").length = 26)]
        omega
      | none =>
        unfold handleRateLimit
        rw [hx]
        dsimp only [jsMessage]
        have hle := infoContains_le h3
        rw [(by decide : tooRecentlyMarker.length = 31)] at hle
        omega
    rw [handleErrors_of_long hlong]
  · intro h1 h2 h3
    rw [if_neg (by simp [h1]), if_neg (by simp [h2]), if_neg (by simp [h3])]
    rfl

/-- Counterexample to C5 as stated: a 200 body whose main text is
exactly `"500"` does not yield `SolveError` carrying the text — the
catch-all normalizer turns the thrown `SOLVE_ERROR` whose message is
`"500"` into `INVALID_SESSION_TOKEN`. -/
theorem claim_C5_counterexample :
    sendSolution ⟨true, 0, 0⟩ 0 200 (some "500")
      = (⟨true, 0, 0⟩, .thrown (.aoc ⟨.INVALID_SESSION_TOKEN, ""⟩))
    ∧ sendSolution ⟨true, 0, 0⟩ 0 200 (some "500")
      ≠ (⟨true, 0, 0⟩, .thrown (.aoc ⟨.SOLVE_ERROR, "500"⟩)) := by
  constructor
  · rfl
  · decide

/-- Witness for C5 (amended): a concrete success body classifies as
`Success`, with the bracketed day counter stripped before matching. -/
theorem claim_C5_response_classifier_witness :
    sendSolution ⟨true, 0, 0⟩ 0 200
        (some ("[Day 5] That" ++ apos ++ "s the right answer! You rock"))
      = (⟨true, 0, 0⟩, .ok .success) :=
  (claim_C5_response_classifier ⟨true, 0, 0⟩ 0
      (some ("[Day 5] That" ++ apos ++ "s the right answer! You rock"))
      (computeInfo (some ("[Day 5] That" ++ apos ++ "s the right answer! You rock")))
      rfl rfl).1 (by decide)

/-- C6: when a 200 body reaches the rate-limit branch but the Duration
Parser finds neither pattern, the call throws `SOLVE_ERROR` carrying the
text and the throttle state is byte-for-byte unchanged — no transition
to Cooling happens; and `parseDuration "garbage" = none`. -/
theorem claim_C6_extraction_failure (st : ThrottleState) (now : Int)
    (mt : Option String) (info : String)
    (hopen : st.canSubmit = true) (hinfo : info = computeInfo mt)
    (h1 : infoContains info rightAnswerMarker = false)
    (h2 : infoContains info wrongAnswerMarker = false)
    (h3 : infoContains info tooRecentlyMarker = true)
    (hparse : parseDuration info = none) :
    sendSolution st now 200 mt = (st, .thrown (.aoc ⟨.SOLVE_ERROR, info⟩))
    ∧ parseDuration "garbage" = none := by
  refine ⟨?_, by decide⟩
  subst hinfo
  rw [sendSolution_open st now 200 mt hopen]
  unfold processResponse
  rw [if_neg (by decide)]
  dsimp only
  rw [if_neg (by simp [h1]), if_neg (by simp [h2]), if_pos h3]
  have hx : extractWaitTime (computeInfo mt) = none := by
    unfold parseDuration at hparse
    exact Option.map_eq_none'.mp hparse
  unfold handleRateLimit
  rw [hx]
  dsimp only
  have hlong :
      3 < (jsMessage (.aoc ⟨.SOLVE_ERROR, computeInfo mt⟩)).length := by
    dsimp only [jsMessage]
    have hle := infoContains_le h3
    rw [(by decide : tooRecentlyMarker.length = 31)] at hle
    omega
  rw [handleErrors_of_long hlong]

/-- Witness for C6: a rate-limit body with no parsable duration. -/
theorem claim_C6_extraction_failure_witness :
    sendSolution ⟨true, 0, 0⟩ 0 200
        (some "You gave an answer too recently; no clue when")
      = (⟨true, 0, 0⟩,
         .thrown (.aoc ⟨.SOLVE_ERROR,
           "You gave an answer too recently; no clue when"⟩)) := by
  have h := (claim_C6_extraction_failure ⟨true, 0, 0⟩ 0
      (some "You gave an answer too recently; no clue when")
      (computeInfo (some "You gave an answer too recently; no clue when"))
      rfl rfl (by decide) (by decide) (by decide) (by decide)).1
  exact h.trans (by decide)

/-- C3 (amended): with no spelled-out match, the shorthand scanner
collects all tokens, but per unit letter the LAST token overwrites
earlier ones (assignment into `waitTime`, not summation); tokens with
distinct unit letters all contribute. So `parse("1h 5m") = 3900000` but
`parse("5m 3m") = 180000`, not `480000`. -/
theorem claim_C3_shorthand_last_wins (info : String) (ms : List (Nat × Char))
    (hsp : findSpelled info.toList = none)
    (hms : scanShorthand info.toList = ms)
    (hne : ms ≠ []) :
    (parseDuration info
      = some ((lastAssigned 'd' ms).getD 0 * 86400000
          + (lastAssigned 'h' ms).getD 0 * 3600000
          + (lastAssigned 'm' ms).getD 0 * 60000
          + (lastAssigned 's' ms).getD 0 * 1000)) ∧
    parseDuration "1h 5m" = some 3900000 ∧
    parseDuration "5m 3m" = some 180000 := by
  refine ⟨?_, by decide, by decide⟩
  cases ms with
  | nil => exact absurd rfl hne
  | cons a tl =>
    unfold parseDuration extractWaitTime
    rw [hsp]
    dsimp only
    rw [hms]
    dsimp only
    simp only [Option.map_some', Option.some.injEq, totalMs, totalSeconds]
    rw [applyMatches_s, applyMatches_m, applyMatches_h, applyMatches_d]
    dsimp only [wt0]
    omega

/-- Counterexample to C3 as stated: in `"5m 3m"` both tokens carry the
same unit, yet the result is not their sum. -/
theorem claim_C3_counterexample :
    parseDuration "5m 3m" ≠ some (5 * 60000 + 3 * 60000)
    ∧ parseDuration "5m 3m" = some 180000 := by
  constructor
  · decide
  · decide

/-- Witness for C3 (amended) at a three-token input with a repeated
unit: the last `m` token wins. -/
theorem claim_C3_shorthand_last_wins_witness :
    parseDuration "2h 7m 3m" = some 7380000 := by
  have h := (claim_C3_shorthand_last_wins "2h 7m 3m" [(2, 'h'), (7, 'm'), (3, 'm')]
      (by decide) (by decide) (by decide)).1
  exact h.trans (by decide)

/-- C4: whenever the text contains a spelled-out quantity word followed
by a unit word (the pattern of the spelled-out regex), the spelled-out
match alone determines the parsed duration — the result is
`strToNum q * unitMillis u` for the leftmost match `(q, u)`, with no
contribution from any shorthand token; and
`parse("two minutes") = 120000`. -/
theorem claim_C4_spelled_wins (info : String) (a b : List Char) (qw uw q u : String)
    (hq : qw ∈ quantityWords) (hu : uw ∈ unitWords)
    (hinfo : info.toList = a ++ (qw.toList ++ ' ' :: (uw.toList ++ b))) :
    (findSpelled info.toList).isSome = true ∧
    (findSpelled info.toList = some (q, u) →
      parseDuration info = some (strToNum q * unitMillis u)) ∧
    parseDuration "two minutes" = some 120000 := by
  refine ⟨?_, ?_, by decide⟩
  · rw [hinfo]
    refine findSpelled_isSome_of_suffix a _ ?_
    rw [matchSpelledAt_pattern b hq hu]
    rfl
  · intro h
    exact parseDuration_spelled h (findSpelled_mem _ _ _ h).2

/-- Witness for C4 at `"two minutes"`. -/
theorem claim_C4_spelled_wins_witness :
    parseDuration "two minutes" = some 120000 := by
  have h := (claim_C4_spelled_wins "two minutes" [] ['s'] "two" "minute"
      "two" "minute" (by decide) (by decide) (by decide)).2.1 (by decide)
  exact h.trans (by decide)

theorem msToReadable_seconds (r : Nat) (h1 : 1000 ≤ r) (h2 : r < 60000) :
    msToReadable r = toString (r / 1000) ++ "s " := by
  unfold msToReadable
  dsimp only
  have e1 : r / (24 * (60 * (60 * 1000))) = 0 := Nat.div_eq_of_lt (by omega)
  rw [e1]
  simp only [Nat.mul_zero, Nat.sub_zero]
  have e2 : r / (60 * (60 * 1000)) = 0 := Nat.div_eq_of_lt (by omega)
  rw [e2]
  simp only [Nat.mul_zero, Nat.sub_zero]
  have e3 : r / (60 * 1000) = 0 := Nat.div_eq_of_lt (by omega)
  rw [e3]
  simp only [Nat.mul_zero, Nat.sub_zero]
  have hs : r / 1000 ≠ 0 := by
    have hone : 1 ≤ r / 1000 :=
      (Nat.le_div_iff_mul_le (by norm_num)).mpr (by omega)
    omega
  unfold timeToReadable
  rw [if_neg (by simp), if_neg (by simp), if_neg (by simp), if_pos hs]
  simp only [String.empty_append]

/-- C7 (amended): the concrete scenario. A 200 body containing
`"You gave an answer too recently... one minute"` puts the scheduler in
Cooling for 60000 ms (throwing `RATE_LIMIT`); every re-submission at
`0 < t < 60000` returns `Waiting` with message
`"You have to wait: " ++ msToReadable (60000 - t)`; while at least one
full second remains, that message is `"You have to wait: Xs "` with
`X = (60000 - t) / 1000 < 60` (the zero minutes unit is omitted, there
is no `"0m "` part); and `X` strictly decreases across checks at least
one second apart. -/
theorem claim_C7_cooling_scenario (t t1 t2 : Int) :
    (sendSolution ⟨true, 0, 0⟩ 0 200
        (some "You gave an answer too recently... one minute")
      = (⟨false, 0, 60000⟩,
         .thrown (.aoc ⟨.RATE_LIMIT, "Next request possible in: 1m "⟩))) ∧
    (0 < t → t < 60000 →
      sendSolution ⟨false, 0, 60000⟩ t 200 none
        = (⟨false, 0, 60000⟩,
           .ok (.wait ("You have to wait: "
             ++ msToReadable (60000 - t).toNat)))) ∧
    (0 < t → t < 60000 → 1000 ≤ 60000 - t →
      msToReadable (60000 - t).toNat
        = toString ((60000 - t).toNat / 1000) ++ "s "
      ∧ (60000 - t).toNat / 1000 < 60) ∧
    (0 ≤ t1 → t1 + 1000 ≤ t2 → t2 < 60000 →
      (60000 - t2).toNat / 1000 < (60000 - t1).toNat / 1000) := by
  refine ⟨by decide, ?_, ?_, ?_⟩
  · intro h0 h1
    unfold sendSolution
    rw [checkGate_cooling_wait ⟨false, 0, 60000⟩ t rfl (by dsimp only; omega)]
    dsimp only
    rw [show (60000 : Int) - (t - 0) = 60000 - t from by omega]
  · intro h0 h1 h2
    have hr1 : 1000 ≤ ((60000 : Int) - t).toNat := by omega
    have hr2 : ((60000 : Int) - t).toNat < 60000 := by omega
    refine ⟨msToReadable_seconds _ hr1 hr2, ?_⟩
    rw [Nat.div_lt_iff_lt_mul (by norm_num)]
    omega
  · intro h0 h1 h2
    have hx : ((60000 : Int) - t2).toNat + 1000 ≤ ((60000 : Int) - t1).toNat := by
      omega
    calc ((60000 : Int) - t2).toNat / 1000
        < ((60000 : Int) - t2).toNat / 1000 + 1 := Nat.lt_succ_self _
      _ = (((60000 : Int) - t2).toNat + 1000) / 1000 :=
          (Nat.add_div_right _ (by norm_num)).symm
      _ ≤ ((60000 : Int) - t1).toNat / 1000 := Nat.div_le_div_right hx

/-- Counterexample to C7 as stated: one second into the 60 s cooldown
the message is `"You have to wait: 59s "`; it contains no `"0m"` — the
claimed `"You have to wait: 0m Xs"` format never occurs because the
renderer omits zero units. -/
theorem claim_C7_counterexample :
    (sendSolution ⟨false, 0, 60000⟩ 1000 200 none).2
      = .ok (.wait "You have to wait: 59s ")
    ∧ infoContains "You have to wait: 59s " "0m" = false := by
  constructor
  · decide
  · decide

/-- Witness for C7 (amended) at `t = 1000`. -/
theorem claim_C7_cooling_scenario_witness :
    sendSolution ⟨false, 0, 60000⟩ 1000 200 none
      = (⟨false, 0, 60000⟩,
         .ok (.wait ("You have to wait: " ++ msToReadable 59000))) := by
  have h := (claim_C7_cooling_scenario 1000 0 0).2.1 (by decide) (by decide)
  exact h.trans (by decide)

/-- C8 (amended): the submission request is a POST to
`{base}/{year}/day/{day}/answer` with form-encoded body
`level=<part>&answer=<solution>`, where the answer text is interpolated
verbatim (not URL-encoded); the body agrees with the URL-encoded form
exactly when the answer consists of characters that URL-encode to
themselves. -/
theorem claim_C8_submission_body (year day part : Nat) (solution : String)
    (hsol : ∀ c ∈ solution.toList, isUnreservedChar c = true) :
    (submissionRequest year day part solution).body
      = "level=" ++ toString part ++ "&answer=" ++ solution ∧
    (submissionRequest year day part solution).body
      = "level=" ++ toString part ++ "&answer=" ++ urlEncode solution ∧
    (submissionRequest year day part solution).url
      = API_URL ++ "/" ++ toString year ++ "/day/" ++ toString day ++ "/answer" ∧
    (submissionRequest year day part solution).method = "POST" := by
  refine ⟨?_, ?_, ?_, ?_⟩
  · rfl
  · show (submissionRequest year day part solution).body
      = "level=" ++ toString part ++ "&answer=" ++ urlEncode solution
    rw [urlEncode_unreserved hsol]
    rfl
  · rfl
  · rfl

/-- Counterexample to C8 as stated: for the answer `"a b"` the body
carries the raw text, not its URL-encoding `"a%20b"`. -/
theorem claim_C8_counterexample :
    (submissionRequest 2023 5 1 "a b").body = "level=1&answer=a b"
    ∧ urlEncode "a b" = "a%20b"
    ∧ (submissionRequest 2023 5 1 "a b").body
        ≠ "level=1&answer=" ++ urlEncode "a b" := by
  refine ⟨rfl, by decide, by decide⟩

/-- Witness for C8 (amended) at an answer made of unreserved characters. -/
theorem claim_C8_submission_body_witness :
    (submissionRequest 2023 5 1 "42").body = "level=1&answer=" ++ urlEncode "42" :=
  (claim_C8_submission_body 2023 5 1 "42" (by decide)).2.1

/-- C9: the shorthand scanner accepts arbitrary whitespace between the
digit run and the unit letter, and the unit letter may be the first
letter of a longer word: any text
`p ++ digits ++ whitespace ++ unit-letter :: rest` (with no digit in
`p`) produces the token `(digits, unit)` and scanning resumes after the
letter; so `"wait 5 minutes"` parses as 5 minutes. -/
theorem claim_C9_loose_shorthand (p ds ws q : List Char) (u : Char)
    (hp : ∀ c ∈ p, c.isDigit = false)
    (hds : ds ≠ []) (hdig : ∀ c ∈ ds, c.isDigit = true)
    (hws : ws ≠ []) (hwsp : ∀ c ∈ ws, c.isWhitespace = true)
    (hu : isUnitChar u = true) :
    scanShorthand (p ++ (ds ++ (ws ++ u :: q)))
      = (digitsVal ds, u) :: scanShorthand q ∧
    parseDuration "wait 5 minutes" = some 300000 :=
  ⟨scanShorthand_token p ds ws q u hp hds hdig hws hwsp hu, by decide⟩

/-- Witness for C9 at `"wait 5 minutes"`. -/
theorem claim_C9_loose_shorthand_witness :
    scanShorthand "wait 5 minutes".toList = [(5, 'm')] := by
  have e : "wait 5 minutes".toList
      = "wait ".toList ++ (['5'] ++ ([' '] ++ 'm' :: "inutes".toList)) := by decide
  have h := (claim_C9_loose_shorthand "wait ".toList ['5'] [' ']
      "inutes".toList 'm' (by decide) (by decide) (by decide) (by decide)
      (by decide) (by decide)).1
  rw [e, h]
  decide
